import Mathlib

/-!
Verification development for a multi-reactor TCP server runtime
(Buffer, Channel dispatch, EPollPoller channel state machine,
EventLoopThreadPool round robin, TcpConnection send path).

Each definition is a shallow embedding of the corresponding C++ source
entity, translated clause by clause from the repository; bytes are `Nat`,
byte regions are `List Nat`, and syscall outcomes are explicit
parameters of the embedded functions. Definitions come first, then the
supporting lemmas and the claim theorems.
-/

namespace Server

/-! ## Definitions -/

/-! ### List helpers: in-place writes and vector resize

These model `std::copy(data, data + len, begin() + pos)` and
`std::vector<char>::resize(n)` on the backing store. -/

/-- Overwrite the elements of `l` starting at position `pos` with `data`,
one element at a time (models `std::copy` into a preallocated region). -/
def writeAt (l : List Nat) (pos : Nat) : List Nat → List Nat
  | [] => l
  | d :: ds => writeAt (l.set pos d) (pos + 1) ds

/-- Model of `std::vector<char>::resize n`: truncate or zero-extend to length `n`. -/
def resizeVec (l : List Nat) (n : Nat) : List Nat :=
  if n ≤ l.length then l.take n else l ++ List.replicate (n - l.length) 0

/-! ### Buffer (include/Buffer.h, src/Buffer.cpp)

Layout `[prependable | readable | writable]` with cursors `readerIndex_`,
`writerIndex_` over a growable byte vector `buffer_`. -/

/-- Default prepend headroom, `static const size_t kCheapPrepend = 8`. -/
def kCheapPrepend : Nat := 8

/-- Initial writable size, `static const size_t kInitialSize = 1024`. -/
def kInitialSize : Nat := 1024

/-- Shallow embedding of `class Buffer`: the byte vector and the two cursors. -/
structure Buffer where
  buffer : List Nat
  readerIndex : Nat
  writerIndex : Nat
  deriving Repr, DecidableEq

namespace Buffer

/-- Constructor `Buffer(size_t initialSize = kInitialSize)`. -/
def mkBuffer (initialSize : Nat := kInitialSize) : Buffer :=
  { buffer := List.replicate (kCheapPrepend + initialSize) 0
    readerIndex := kCheapPrepend
    writerIndex := kCheapPrepend }

/-- Backing store size, `buffer_.size()` (the capacity of the claims). -/
def size (b : Buffer) : Nat := b.buffer.length

/-- Source `readable_bytes()`: `writerIndex_ - readerIndex_`. -/
def readable_bytes (b : Buffer) : Nat := b.writerIndex - b.readerIndex

/-- Source `writable_bytes()`: `buffer_.size() - writerIndex_`. -/
def writable_bytes (b : Buffer) : Nat := b.size - b.writerIndex

/-- Source `prependable_bytes()`: `readerIndex_`. -/
def prependable_bytes (b : Buffer) : Nat := b.readerIndex

/-- The readable region `[peek(), begin_write())` as a list of bytes. -/
def readableList (b : Buffer) : List Nat :=
  (b.buffer.drop b.readerIndex).take b.readable_bytes

/-- Source `retrieve_all()`: reset both cursors to the prepend offset. -/
def retrieve_all (b : Buffer) : Buffer :=
  { b with readerIndex := kCheapPrepend, writerIndex := kCheapPrepend }

/-- Source `retrieve(len)`: advance the reader; a `len` that is not
strictly below `readable_bytes()` resets both cursors. -/
def retrieve (b : Buffer) (len : Nat) : Buffer :=
  if len < b.readable_bytes then
    { b with readerIndex := b.readerIndex + len }
  else
    b.retrieve_all

/-- Source `retrieve_as_string(len)`: clamp `len` to `readable_bytes()`,
copy the bytes out, then `retrieve` that many. -/
def retrieve_as_string (b : Buffer) (len : Nat) : List Nat × Buffer :=
  let l := min len b.readable_bytes
  ((b.buffer.drop b.readerIndex).take l, b.retrieve l)

/-- Source `make_space(len)`: resize to exactly `writerIndex_ + len`
when even compaction cannot yield `len` writable bytes, otherwise move
the readable bytes back to the prepend offset. -/
def make_space (b : Buffer) (len : Nat) : Buffer :=
  if b.writable_bytes + b.prependable_bytes < len + kCheapPrepend then
    { b with buffer := resizeVec b.buffer (b.writerIndex + len) }
  else
    let readable := b.readable_bytes
    { buffer := writeAt b.buffer kCheapPrepend b.readableList
      readerIndex := kCheapPrepend
      writerIndex := kCheapPrepend + readable }

/-- Source `ensure_writable_bytes(len)`. -/
def ensure_writable_bytes (b : Buffer) (len : Nat) : Buffer :=
  if b.writable_bytes < len then b.make_space len else b

/-- Source `append(data, len)`: make room, copy at `begin_write()`,
advance the writer. -/
def append (b : Buffer) (data : List Nat) : Buffer :=
  let b' := b.ensure_writable_bytes data.length
  { b' with buffer := writeAt b'.buffer b'.writerIndex data
            writerIndex := b'.writerIndex + data.length }

/-- Source `read_fd(fd, &savedErrno)` on a successful `readv` that
returned the byte list `incoming`: if everything fits in the writable
region just advance the writer, otherwise fill the writable region,
set the writer to the end of the store and `append` the overflow that
landed in the 64 KiB stack scratch. A failed `readv` (`n < 0`) leaves
the buffer untouched and is therefore not modelled as a separate case. -/
def read_fd (b : Buffer) (incoming : List Nat) : Buffer :=
  let writable := b.writable_bytes
  if incoming.length ≤ writable then
    { b with buffer := writeAt b.buffer b.writerIndex incoming
             writerIndex := b.writerIndex + incoming.length }
  else
    let b' := { b with buffer := writeAt b.buffer b.writerIndex (incoming.take writable)
                       writerIndex := b.size }
    b'.append (incoming.drop writable)

/-- The structural invariant of a reachable buffer: the prepend headroom
never drops below `kCheapPrepend` and the cursors stay ordered within
the backing store. -/
def invS (b : Buffer) : Prop :=
  kCheapPrepend ≤ b.readerIndex ∧ b.readerIndex ≤ b.writerIndex ∧ b.writerIndex ≤ b.size

/-- One public Buffer operation, with its input data where the source
operation takes any. -/
inductive BufOp where
  | append (data : List Nat)
  | retrieve (len : Nat)
  | retrieveAll
  | retrieveAsString (len : Nat)
  | ensureWritable (len : Nat)
  | readFd (incoming : List Nat)
  deriving Repr, DecidableEq

/-- Run one operation on a buffer (the state left behind by the source call). -/
def applyOp (b : Buffer) : BufOp → Buffer
  | .append data => b.append data
  | .retrieve len => b.retrieve len
  | .retrieveAll => b.retrieve_all
  | .retrieveAsString len => (b.retrieve_as_string len).2
  | .ensureWritable len => b.ensure_writable_bytes len
  | .readFd incoming => b.read_fd incoming

/-- Run a whole operation sequence. -/
def applyOps (b : Buffer) (ops : List BufOp) : Buffer := ops.foldl applyOp b

/-- Per-operation side condition of the compaction claim: every writable
amount the operation requires stays within
`writable + prependable - kCheapPrepend` at the point of the request
(for `read_fd`, the overflow append is measured against the state after
the writable region has been filled). -/
def reqOkB (b : Buffer) : BufOp → Bool
  | .append data => decide (data.length ≤ b.writable_bytes + b.prependable_bytes - kCheapPrepend)
  | .ensureWritable len => decide (len ≤ b.writable_bytes + b.prependable_bytes - kCheapPrepend)
  | .readFd incoming => decide (incoming.length ≤ b.writable_bytes) ||
      decide (incoming.length - b.writable_bytes ≤ b.readerIndex - kCheapPrepend)
  | _ => true

/-- The side condition threaded along a whole operation sequence. -/
def reqOkTrace (b : Buffer) : List BufOp → Bool
  | [] => true
  | op :: ops => reqOkB b op && reqOkTrace (applyOp b op) ops

end Buffer

/-! ### Channel event dispatch (src/Channel.cpp)

`handle_event_with_guard` tests bits of `revents_` against the epoll
event constants and runs the installed callbacks in a fixed order. -/

/-- Linux `EPOLLIN`. -/
def EPOLLIN : Nat := 1

/-- Linux `EPOLLPRI`. -/
def EPOLLPRI : Nat := 2

/-- Linux `EPOLLOUT`. -/
def EPOLLOUT : Nat := 4

/-- Linux `EPOLLERR`. -/
def EPOLLERR : Nat := 8

/-- Linux `EPOLLHUP`. -/
def EPOLLHUP : Nat := 16

/-- One observable callback invocation during Channel dispatch; the read
callback carries the receipt timestamp it is given. -/
inductive CbCall where
  | close
  | error
  | read (recvTime : Nat)
  | write
  deriving Repr, DecidableEq

/-- Which of the four callbacks are installed on the Channel (the source
guards each invocation with `if (cb_)`). -/
structure ChannelCbs where
  hasClose : Bool
  hasError : Bool
  hasRead : Bool
  hasWrite : Bool
  deriving Repr, DecidableEq

namespace Channel

/-- Source `Channel::handle_event_with_guard(recvTime)`: the sequence of
callback invocations it performs for a ready-event mask `revents`. -/
def handle_event_with_guard (revents : Nat) (cbs : ChannelCbs) (recvTime : Nat) : List CbCall :=
  (if revents &&& EPOLLHUP ≠ 0 ∧ revents &&& EPOLLIN = 0 then
    (if cbs.hasClose then [CbCall.close] else [])
  else []) ++
  (if revents &&& EPOLLERR ≠ 0 then
    (if cbs.hasError then [CbCall.error] else [])
  else []) ++
  (if revents &&& (EPOLLIN ||| EPOLLPRI) ≠ 0 then
    (if cbs.hasRead then [CbCall.read recvTime] else [])
  else []) ++
  (if revents &&& EPOLLOUT ≠ 0 then
    (if cbs.hasWrite then [CbCall.write] else [])
  else [])

end Channel

/-! ### EPollPoller channel bookkeeping (src/EPollPoller.cpp, src/Poller.cpp) -/

/-- Channel state tag `kNew = -1` (never registered). -/
def kNew : Int := -1

/-- Channel state tag `kAdded = 1` (currently registered). -/
def kAdded : Int := 1

/-- Channel state tag `kDeleted = 2` (in the map but unsubscribed). -/
def kDeleted : Int := 2

/-- The per-Channel data the poller logic reads and writes: the file
descriptor, the object identity of the Channel (the pointer value the
map stores), the state tag `index_` and the interest mask `events_`. -/
structure PChannel where
  fd : Nat
  ptr : Nat
  index : Int
  events : Nat
  deriving Repr, DecidableEq

/-- The fd to Channel-pointer map `channels_`, with unique keys. -/
def ChannelMap : Type := List (Nat × Nat)

/-- `channels_.erase(fd)`. -/
def mapErase (m : ChannelMap) (fd : Nat) : ChannelMap :=
  List.filter (fun p => decide (p.1 ≠ fd)) m

/-- `channels_[fd] = channel` (insert or overwrite). -/
def mapInsert (m : ChannelMap) (fd ptr : Nat) : ChannelMap :=
  (fd, ptr) :: mapErase m fd

/-- `channels_.find(fd)`. -/
def mapLookup (m : ChannelMap) (fd : Nat) : Option Nat :=
  List.lookup fd m

/-- Source `Channel::is_none_event()`: `events_ == KNoneEvent` with
`KNoneEvent = 0`. -/
def is_none_event (ch : PChannel) : Bool := ch.events == 0

/-- An `epoll_ctl` operation issued to the kernel. -/
inductive EpollCtl where
  | add
  | mod
  | del
  deriving Repr, DecidableEq

/-- Result of a poller bookkeeping call: the new map, the channel with
its possibly updated tag, and the kernel operation issued (if any). -/
structure PollerStep where
  map : ChannelMap
  chan : PChannel
  ctl : Option EpollCtl

namespace EPollPoller

/-- Source `EPollPoller::update_channel(channel)`. -/
def update_channel (m : ChannelMap) (ch : PChannel) : PollerStep :=
  if ch.index = kNew ∨ ch.index = kDeleted then
    let m' := if ch.index = kNew then mapInsert m ch.fd ch.ptr else m
    ⟨m', { ch with index := kAdded }, some EpollCtl.add⟩
  else
    if is_none_event ch then
      ⟨m, { ch with index := kDeleted }, some EpollCtl.del⟩
    else
      ⟨m, ch, some EpollCtl.mod⟩

/-- Source `EPollPoller::remove_channel(channel)`: a guard checks that
the fd is in the map; inside it the map entry is erased, a `DEL` is
issued only for a currently `kAdded` channel, and the tag resets. -/
def remove_channel (m : ChannelMap) (ch : PChannel) : PollerStep :=
  if (mapLookup m ch.fd).isSome then
    ⟨mapErase m ch.fd, { ch with index := kNew },
      if ch.index = kAdded then some EpollCtl.del else none⟩
  else
    ⟨m, ch, none⟩

end EPollPoller

namespace Poller

/-- Source `Poller::has_channel(channel)` (src/Poller.cpp): map lookup on
the fd followed by a pointer comparison of the stored Channel,
`it != channels_.end() && it->second == channel`. -/
def has_channel (m : ChannelMap) (ch : PChannel) : Bool :=
  match mapLookup m ch.fd with
  | some p => p == ch.ptr
  | none => false

end Poller

/-! ### EventLoopThreadPool round robin (src/EventLoopThreadPool.cpp) -/

/-- Pool state: the collected worker loops (as loop identifiers) and the
round-robin cursor `next_`. -/
structure EventLoopThreadPool where
  loops : List Nat
  next : Nat
  deriving Repr, DecidableEq

namespace EventLoopThreadPool

/-- Source `get_next_loop()`: base loop when there are no workers,
otherwise `loops_[next_]` with the cursor advanced and wrapped. -/
def get_next_loop (baseLoop : Nat) (p : EventLoopThreadPool) : Nat × EventLoopThreadPool :=
  if p.loops.isEmpty then (baseLoop, p)
  else
    let loop := p.loops.getD p.next baseLoop
    let next' := if p.next + 1 ≥ p.loops.length then 0 else p.next + 1
    (loop, { p with next := next' })

/-- `m` sequential accepts dispatched through `get_next_loop` (as done by
`TcpServer::new_connection`): the loops picked, in order, and the final
pool state. -/
def dispatchSeq (baseLoop : Nat) : Nat → EventLoopThreadPool → List Nat × EventLoopThreadPool
  | 0, p => ([], p)
  | m + 1, p =>
    let step := get_next_loop baseLoop p
    let rest := dispatchSeq baseLoop m step.2
    (step.1 :: rest.1, rest.2)

end EventLoopThreadPool

/-! ### TcpConnection send path, half close and state gate
(src/TcpConnection.cpp)

The connection state that the send path reads and writes, plus an
action trace recording every externally observable step. `::write`
outcomes are a parameter. Callbacks passed to `queue_in_loop` are
recorded twice: once when enqueued (during event dispatch) and once
when they run (in the same cycle's pending-functor drain, which
`EventLoop::loop()` enters only after all Channel events of the cycle
have been dispatched). -/

/-- Source `enum StateE`. -/
inductive StateE where
  | kDisconnected
  | kConnecting
  | kConnected
  | kDisconnecting
  deriving Repr, DecidableEq

/-- The fields of `TcpConnection` the send/write/shutdown paths touch. -/
structure TcpConnState where
  state : StateE
  channelWriting : Bool
  outputReadable : Nat
  highWaterMark : Nat
  hasWriteCompleteCb : Bool
  hasHighWaterMarkCb : Bool
  deriving Repr, DecidableEq

/-- An observable step of the send/write/shutdown paths. -/
inductive ConnAct where
  | directWrite (len : Nat)
  | enqueueWriteComplete
  | enqueueHighWaterMark (pending : Nat)
  | appendOutput (len : Nat)
  | enableWriting
  | retrieveOutput (len : Nat)
  | disableWriting
  | shutdownWrite
  | fireWriteComplete
  | logError
  deriving Repr, DecidableEq

/-- Outcome of one `::write` syscall: `wrote n` for a return of `n ≥ 0`,
otherwise the errno the source distinguishes. -/
inductive WriteOutcome where
  | wrote (n : Nat)
  | errEWOULDBLOCK
  | errEPIPE
  | errECONNRESET
  | errOther
  deriving Repr, DecidableEq

namespace TcpConnection

/-- Source `TcpConnection::send_in_loop(data, len)` with the `::write`
outcome `w` as parameter. Returns the new connection state and the
actions performed, in program order. -/
def send_in_loop (c : TcpConnState) (len : Nat) (w : WriteOutcome) :
    TcpConnState × List ConnAct :=
  if c.state = StateE.kDisconnected then
    (c, [ConnAct.logError])
  else
    let step :=
      if c.channelWriting = false ∧ c.outputReadable = 0 then
        match w with
        | WriteOutcome.wrote n =>
          (n, len - n, false,
            [ConnAct.directWrite len] ++
              (if len - n = 0 ∧ c.hasWriteCompleteCb then [ConnAct.enqueueWriteComplete] else []))
        | WriteOutcome.errEWOULDBLOCK => (0, len, false, [ConnAct.directWrite len])
        | WriteOutcome.errEPIPE =>
          (0, len, true, [ConnAct.directWrite len, ConnAct.logError])
        | WriteOutcome.errECONNRESET =>
          (0, len, true, [ConnAct.directWrite len, ConnAct.logError])
        | WriteOutcome.errOther =>
          (0, len, false, [ConnAct.directWrite len, ConnAct.logError])
      else
        (0, len, false, [])
    match step with
    | (_, remaining, faultError, acts) =>
      if faultError = false ∧ 0 < remaining then
        let oldLen := c.outputReadable
        let acts2 :=
          (if c.highWaterMark ≤ oldLen + remaining ∧ oldLen < c.highWaterMark ∧
              c.hasHighWaterMarkCb then
            [ConnAct.enqueueHighWaterMark (oldLen + remaining)]
          else []) ++
          [ConnAct.appendOutput remaining] ++
          (if c.channelWriting = false then [ConnAct.enableWriting] else [])
        ({ c with outputReadable := oldLen + remaining, channelWriting := true },
          acts ++ acts2)
      else
        (c, acts)

/-- Source `TcpConnection::send(buf)`: a state gate on `kConnected`; on
the loop thread `send_in_loop` runs inline, otherwise the posted task
runs it on the loop thread later (the data it then reads is claim C1's
concern, modelled separately below). -/
def send (c : TcpConnState) (len : Nat) (w : WriteOutcome) (_isInLoopThread : Bool) :
    TcpConnState × List ConnAct :=
  if c.state = StateE.kConnected then
    send_in_loop c len w
  else
    (c, [])

/-- Source `TcpConnection::shut_down()`: gate on `kConnected`, move to
`kDisconnecting` (the posted `shut_down_in_loop` is modelled separately). -/
def shut_down (c : TcpConnState) : TcpConnState :=
  if c.state = StateE.kConnected then
    { c with state := StateE.kDisconnecting }
  else
    c

/-- Source `TcpConnection::shut_down_in_loop()`: shut down the write
side only when the Channel is no longer write-interested. -/
def shut_down_in_loop (c : TcpConnState) : List ConnAct :=
  if c.channelWriting = false then [ConnAct.shutdownWrite] else []

/-- Source `TcpConnection::handle_write()` with the `::write` outcome as
parameter. Returns the new state, the actions performed during event
dispatch, and the queued tasks that run in the same cycle's
pending-functor drain. -/
def handle_write (c : TcpConnState) (w : WriteOutcome) :
    TcpConnState × List ConnAct × List ConnAct :=
  if c.channelWriting then
    match w with
    | WriteOutcome.wrote n =>
      if 0 < n then
        let c' := { c with outputReadable := c.outputReadable - n }
        if c'.outputReadable = 0 then
          let c'' := { c' with channelWriting := false }
          ((c'',
            [ConnAct.retrieveOutput n, ConnAct.disableWriting] ++
              (if c.hasWriteCompleteCb then [ConnAct.enqueueWriteComplete] else []) ++
              (if c.state = StateE.kDisconnecting then shut_down_in_loop c'' else []),
            if c.hasWriteCompleteCb then [ConnAct.fireWriteComplete] else []))
        else
          (c', [ConnAct.retrieveOutput n], [])
      else
        (c, [ConnAct.logError], [])
    | _ => (c, [ConnAct.logError], [])
  else
    (c, [ConnAct.logError], [])

/-- Observable order of one loop cycle around `handle_write`: the event
dispatch actions followed by the pending-drain run of the queued tasks
(`EventLoop::loop()` runs `do_pending_functors()` after dispatching all
Channel events of the cycle). -/
def cycleTrace (r : TcpConnState × List ConnAct × List ConnAct) : List ConnAct :=
  r.2.1 ++ r.2.2

/-- The remaining byte count `send_in_loop` is left with after the
direct-write attempt (`remaining` in the source). -/
def remainingOf (c : TcpConnState) (len : Nat) (w : WriteOutcome) : Nat :=
  if c.channelWriting = false ∧ c.outputReadable = 0 then
    match w with
    | WriteOutcome.wrote n => len - n
    | _ => len
  else
    len

/-- Whether the direct-write attempt set `faultError` (`EPIPE` or
`ECONNRESET` on the immediate `::write`). -/
def faultOf (c : TcpConnState) (w : WriteOutcome) : Bool :=
  if c.channelWriting = false ∧ c.outputReadable = 0 then
    match w with
    | WriteOutcome.errEPIPE => true
    | WriteOutcome.errECONNRESET => true
    | _ => false
  else
    false

/-- The pending length of the first high-water-mark enqueue in an action
list, if any. -/
def hwmPending (acts : List ConnAct) : Option Nat :=
  acts.findSome? fun a =>
    match a with
    | ConnAct.enqueueHighWaterMark p => some p
    | _ => none

end TcpConnection

/-! ### Cross-thread send data capture (claim C1)

`TcpConnection::send(const std::string &buf)` posts
`std::bind(&TcpConnection::send_in_loop, this, buf.c_str(), buf.size())`
when called off the loop thread. `std::bind` copies its arguments: the
`const char *` pointer value and the length. The task therefore holds
an address into the caller's string, and the posted `send_in_loop`
reads whatever that memory holds when the task runs. -/

/-- Caller-process memory: the byte stored at each address. -/
def Mem : Type := Nat → Nat

/-- What the cross-thread branch of `send` captures into the posted
task: the pointer value `buf.c_str()` and the length `buf.size()`. -/
structure SendInLoopTask where
  ptr : Nat
  len : Nat
  deriving Repr, DecidableEq

/-- The capture performed by
`std::bind(&TcpConnection::send_in_loop, this, buf.c_str(), buf.size())`. -/
def send_cross_thread_capture (bufPtr bufLen : Nat) : SendInLoopTask :=
  ⟨bufPtr, bufLen⟩

/-- The `len` bytes starting at `ptr` in memory `mem`. -/
def readBytes (mem : Mem) (ptr len : Nat) : List Nat :=
  (List.range len).map fun i => mem (ptr + i)

/-- The data bytes the posted `send_in_loop(data, len)` reads when the
loop runs the task, as a function of the memory at execution time. -/
def execCapturedTask (mem : Mem) (t : SendInLoopTask) : List Nat :=
  readBytes mem t.ptr t.len

/-! ## Lemmas and claim theorems -/

theorem writeAt_length (data : List Nat) : ∀ (l : List Nat) (pos : Nat),
    (writeAt l pos data).length = l.length := by
  induction data with
  | nil => intro l pos; rfl
  | cons d ds ih => intro l pos; simp [writeAt, ih]

theorem resizeVec_length (l : List Nat) (n : Nat) : (resizeVec l n).length = n := by
  unfold resizeVec
  split <;> simp <;> omega

/-- For an in-bounds write, `writeAt` splices `data` between the untouched
prefix and the untouched tail of the backing store. -/
theorem writeAt_eq_splice (data : List Nat) : ∀ (l : List Nat) (pos : Nat),
    pos + data.length ≤ l.length →
    writeAt l pos data = l.take pos ++ data ++ l.drop (pos + data.length) := by
  induction data with
  | nil =>
    intro l pos _
    simp [writeAt]
  | cons d ds ih =>
    intro l pos h
    simp only [List.length_cons] at h
    have hpos : pos < l.length := by omega
    rw [writeAt, ih (l.set pos d) (pos + 1) (by simp; omega)]
    have hdrop : (l.set pos d).drop (pos + 1 + ds.length) = l.drop (pos + 1 + ds.length) :=
      List.drop_set_of_lt d l (by omega)
    have htake : (l.set pos d).take (pos + 1) = l.take pos ++ [d] := by
      rw [List.set_eq_take_append_cons_drop, if_pos hpos,
          List.take_append_eq_append_take, List.take_take]
      have h1 : min (pos + 1) pos = pos := by omega
      have h2 : pos + 1 - (l.take pos).length = 1 := by
        simp only [List.length_take]
        omega
      rw [h1, h2]
      simp
    rw [hdrop, htake]
    have h3 : pos + 1 + ds.length = pos + (ds.length + 1) := by omega
    rw [h3]
    simp

namespace Buffer

theorem invS_mkBuffer (initialSize : Nat) : invS (mkBuffer initialSize) := by
  simp [invS, mkBuffer, size, kCheapPrepend]

theorem make_space_spec (b : Buffer) (len : Nat) (h : invS b) :
    invS (b.make_space len) ∧ len ≤ (b.make_space len).writable_bytes ∧
    (b.make_space len).readable_bytes = b.readable_bytes := by
  obtain ⟨h1, h2, h3⟩ := h
  simp only [invS, size] at h3 ⊢
  unfold make_space
  split
  case isTrue hcond =>
    refine ⟨⟨h1, h2, ?_⟩, ?_, rfl⟩
    · show b.writerIndex ≤ (resizeVec b.buffer (b.writerIndex + len)).length
      rw [resizeVec_length]
      omega
    · show len ≤ (resizeVec b.buffer (b.writerIndex + len)).length - b.writerIndex
      rw [resizeVec_length]
      omega
  case isFalse hcond =>
    simp only [writable_bytes, prependable_bytes, size, not_lt] at hcond
    have hread : b.readable_bytes = b.writerIndex - b.readerIndex := rfl
    refine ⟨⟨le_refl _, ?_, ?_⟩, ?_, ?_⟩
    · show kCheapPrepend ≤ kCheapPrepend + b.readable_bytes
      omega
    · show kCheapPrepend + b.readable_bytes ≤ (writeAt b.buffer kCheapPrepend b.readableList).length
      rw [writeAt_length]
      simp only [kCheapPrepend] at *
      omega
    · show len ≤ (writeAt b.buffer kCheapPrepend b.readableList).length -
        (kCheapPrepend + b.readable_bytes)
      rw [writeAt_length]
      simp only [kCheapPrepend] at *
      omega
    · show kCheapPrepend + b.readable_bytes - kCheapPrepend = b.readable_bytes
      omega

theorem ensure_writable_spec (b : Buffer) (len : Nat) (h : invS b) :
    invS (b.ensure_writable_bytes len) ∧
    len ≤ (b.ensure_writable_bytes len).writable_bytes ∧
    (b.ensure_writable_bytes len).readable_bytes = b.readable_bytes := by
  unfold ensure_writable_bytes
  split
  case isTrue => exact make_space_spec b len h
  case isFalse hcond => exact ⟨h, by omega, rfl⟩

theorem invS_append (b : Buffer) (data : List Nat) (h : invS b) : invS (b.append data) := by
  obtain ⟨h1, h2, h3⟩ := ensure_writable_spec b data.length h
  obtain ⟨g1, g2, g3⟩ := h1
  unfold append invS size
  simp only [writeAt_length]
  unfold writable_bytes size at h2
  unfold size at g3
  omega

theorem invS_retrieve_all (b : Buffer) (h : invS b) : invS b.retrieve_all := by
  obtain ⟨h1, h2, h3⟩ := h
  simp only [invS, retrieve_all, size] at *
  omega

theorem invS_retrieve (b : Buffer) (len : Nat) (h : invS b) : invS (b.retrieve len) := by
  unfold retrieve
  split
  case isTrue hlt =>
    obtain ⟨h1, h2, h3⟩ := h
    simp only [readable_bytes] at hlt
    simp only [invS, size] at *
    omega
  case isFalse => exact invS_retrieve_all b h

theorem invS_read_fd (b : Buffer) (incoming : List Nat) (h : invS b) :
    invS (b.read_fd incoming) := by
  obtain ⟨h1, h2, h3⟩ := h
  simp only [read_fd]
  split
  case isTrue hfit =>
    simp only [writable_bytes, size] at hfit
    simp only [invS, size, writeAt_length] at *
    omega
  case isFalse hover =>
    apply invS_append
    simp only [invS, size, writeAt_length] at *
    omega

theorem invS_applyOp (b : Buffer) (op : BufOp) (h : invS b) : invS (applyOp b op) := by
  cases op with
  | append data => exact invS_append b data h
  | retrieve len => exact invS_retrieve b len h
  | retrieveAll => exact invS_retrieve_all b h
  | retrieveAsString len => exact invS_retrieve b _ h
  | ensureWritable len => exact (ensure_writable_spec b len h).1
  | readFd incoming => exact invS_read_fd b incoming h

theorem invS_applyOps (ops : List BufOp) : ∀ (b : Buffer), invS b → invS (applyOps b ops) := by
  induction ops with
  | nil => intro b h; exact h
  | cons op ops ih =>
    intro b h
    exact ih (applyOp b op) (invS_applyOp b op h)

theorem readableList_length (b : Buffer) (h : invS b) :
    b.readableList.length = b.readable_bytes := by
  obtain ⟨h1, h2, h3⟩ := h
  simp only [readableList, readable_bytes, size, List.length_take, List.length_drop] at *
  omega

/-- Compaction (the `std::copy` to the prepend offset in `make_space`)
preserves the readable content: reading the compacted store from offset
`kCheapPrepend` gives back the old readable region. -/
theorem compact_readable (b : Buffer) (h : invS b) :
    ((writeAt b.buffer kCheapPrepend b.readableList).drop kCheapPrepend).take b.readable_bytes
      = b.readableList := by
  have hlen := readableList_length b h
  obtain ⟨h1, h2, h3⟩ := h
  simp only [size] at h3
  have hin : kCheapPrepend + b.readableList.length ≤ b.buffer.length := by
    rw [hlen]
    simp only [readable_bytes, kCheapPrepend] at *
    omega
  rw [writeAt_eq_splice _ _ _ hin]
  have htk : (b.buffer.take kCheapPrepend).length = kCheapPrepend := by
    simp only [List.length_take, kCheapPrepend] at *
    omega
  rw [List.append_assoc, List.drop_left' htk, List.take_append_eq_append_take,
      List.take_of_length_le (by omega)]
  have : b.readable_bytes - b.readableList.length = 0 := by omega
  rw [this]
  simp

theorem ensure_writable_size_of_req (b : Buffer) (len : Nat)
    (h : len ≤ b.writable_bytes + b.prependable_bytes - kCheapPrepend) :
    (b.ensure_writable_bytes len).size = b.size := by
  unfold ensure_writable_bytes
  split
  case isTrue hlt =>
    unfold make_space
    split
    case isTrue hcond =>
      exfalso
      simp only [writable_bytes, prependable_bytes, size, kCheapPrepend] at *
      omega
    case isFalse =>
      simp [size, writeAt_length]
  case isFalse => rfl

theorem append_size_of_req (b : Buffer) (data : List Nat)
    (h : data.length ≤ b.writable_bytes + b.prependable_bytes - kCheapPrepend) :
    (b.append data).size = b.size := by
  unfold append
  simp only [size, writeAt_length]
  exact ensure_writable_size_of_req b data.length h

theorem applyOp_size_of_req (b : Buffer) (op : BufOp) (h : reqOkB b op = true) :
    (applyOp b op).size = b.size := by
  cases op with
  | append data => exact append_size_of_req b data (by simpa [reqOkB] using h)
  | retrieve len =>
    simp only [applyOp, retrieve, retrieve_all]
    split <;> rfl
  | retrieveAll => rfl
  | retrieveAsString len =>
    simp only [applyOp, retrieve_as_string, retrieve, retrieve_all]
    split <;> rfl
  | ensureWritable len => exact ensure_writable_size_of_req b len (by simpa [reqOkB] using h)
  | readFd incoming =>
    simp only [reqOkB, Bool.or_eq_true, decide_eq_true_eq] at h
    simp only [applyOp, read_fd]
    split
    case isTrue => simp [size, writeAt_length]
    case isFalse hover =>
      rcases h with h | h
      · exact absurd h hover
      · rw [append_size_of_req]
        · simp [size, writeAt_length]
        · simp only [writable_bytes, size] at h
          simp only [writable_bytes, prependable_bytes, size, writeAt_length,
            List.length_drop]
          have : b.buffer.length - b.buffer.length = 0 := by omega
          simp only [this]
          omega

theorem applyOps_size_of_req (ops : List BufOp) : ∀ (b : Buffer),
    reqOkTrace b ops = true → (applyOps b ops).size = b.size := by
  induction ops with
  | nil => intro b _; rfl
  | cons op ops ih =>
    intro b h
    simp only [reqOkTrace, Bool.and_eq_true] at h
    show (applyOps (applyOp b op) ops).size = b.size
    rw [ih (applyOp b op) h.2, applyOp_size_of_req b op h.1]

end Buffer

/-- C5: for every Buffer reachable by any sequence of its operations
(construction, append, retrieve, retrieve_all, retrieve_as_string,
ensure_writable, read_fd), readable + prependable + writable equals the
capacity and the cursors satisfy reader ≤ writer ≤ capacity. -/
theorem c5_buffer_balance (initialSize : Nat) (ops : List Buffer.BufOp) :
    (Buffer.applyOps (Buffer.mkBuffer initialSize) ops).readable_bytes +
      (Buffer.applyOps (Buffer.mkBuffer initialSize) ops).prependable_bytes +
      (Buffer.applyOps (Buffer.mkBuffer initialSize) ops).writable_bytes =
      (Buffer.applyOps (Buffer.mkBuffer initialSize) ops).size ∧
    (Buffer.applyOps (Buffer.mkBuffer initialSize) ops).readerIndex ≤
      (Buffer.applyOps (Buffer.mkBuffer initialSize) ops).writerIndex ∧
    (Buffer.applyOps (Buffer.mkBuffer initialSize) ops).writerIndex ≤
      (Buffer.applyOps (Buffer.mkBuffer initialSize) ops).size := by
  obtain ⟨h1, h2, h3⟩ :=
    Buffer.invS_applyOps ops (Buffer.mkBuffer initialSize) (Buffer.invS_mkBuffer initialSize)
  refine ⟨?_, h2, h3⟩
  simp only [Buffer.readable_bytes, Buffer.prependable_bytes, Buffer.writable_bytes] at *
  omega

/-- C6: `ensure_writable_bytes(len)` with `writable < len` compacts in
place (capacity unchanged, readable bytes moved to the prepend offset)
when `writable + prependable ≥ len + kCheapPrepend`, and otherwise
resizes the store to exactly `writerIndex + len`; and along any
operation sequence whose writable requirements always stay within
`writable + prependable - kCheapPrepend`, the capacity never grows. -/
theorem c6_ensure_writable_policy :
    (∀ (b : Buffer) (len : Nat), Buffer.invS b → b.writable_bytes < len →
      ((len + kCheapPrepend ≤ b.writable_bytes + b.prependable_bytes →
        (b.ensure_writable_bytes len).size = b.size ∧
        (b.ensure_writable_bytes len).readerIndex = kCheapPrepend ∧
        (b.ensure_writable_bytes len).writerIndex = kCheapPrepend + b.readable_bytes ∧
        (b.ensure_writable_bytes len).readableList = b.readableList) ∧
      (b.writable_bytes + b.prependable_bytes < len + kCheapPrepend →
        (b.ensure_writable_bytes len).size = b.writerIndex + len))) ∧
    (∀ (initialSize : Nat) (ops : List Buffer.BufOp),
      Buffer.reqOkTrace (Buffer.mkBuffer initialSize) ops = true →
      (Buffer.applyOps (Buffer.mkBuffer initialSize) ops).size ≤
        (Buffer.mkBuffer initialSize).size) := by
  constructor
  · intro b len hinv hlt
    have hms : b.ensure_writable_bytes len = b.make_space len := by
      unfold Buffer.ensure_writable_bytes
      rw [if_pos hlt]
    constructor
    · intro hcond
      have hbranch : ¬ (b.writable_bytes + b.prependable_bytes < len + kCheapPrepend) := by
        omega
      have hmk : b.make_space len =
          { buffer := writeAt b.buffer kCheapPrepend b.readableList
            readerIndex := kCheapPrepend
            writerIndex := kCheapPrepend + b.readable_bytes } := by
        unfold Buffer.make_space
        rw [if_neg hbranch]
      rw [hms, hmk]
      refine ⟨?_, rfl, rfl, ?_⟩
      · show (writeAt b.buffer kCheapPrepend b.readableList).length = b.size
        rw [writeAt_length]
        rfl
      · show ((writeAt b.buffer kCheapPrepend b.readableList).drop kCheapPrepend).take
            (kCheapPrepend + b.readable_bytes - kCheapPrepend) = b.readableList
        have hsub : kCheapPrepend + b.readable_bytes - kCheapPrepend = b.readable_bytes := by
          omega
        rw [hsub]
        exact Buffer.compact_readable b hinv
    · intro hcond
      have hmk : b.make_space len =
          { b with buffer := resizeVec b.buffer (b.writerIndex + len) } := by
        unfold Buffer.make_space
        rw [if_pos hcond]
      rw [hms, hmk]
      show (resizeVec b.buffer (b.writerIndex + len)).length = b.writerIndex + len
      exact resizeVec_length _ _
  · intro initialSize ops htrace
    exact le_of_eq (Buffer.applyOps_size_of_req ops (Buffer.mkBuffer initialSize) htrace)

/-- Witness for C6: a concrete compaction (capacity 20 kept, cursors
moved to the prepend offset) and a concrete three-operation sequence
within the side condition whose capacity does not grow. -/
theorem c6_ensure_writable_policy_witness :
    (Buffer.ensure_writable_bytes ⟨List.replicate 20 0, 10, 18⟩ 3).size = 20 ∧
    (Buffer.ensure_writable_bytes ⟨List.replicate 20 0, 10, 18⟩ 3).readerIndex = 8 ∧
    (Buffer.applyOps (Buffer.mkBuffer 16)
      [Buffer.BufOp.append (List.replicate 4 1), Buffer.BufOp.retrieve 4,
        Buffer.BufOp.append (List.replicate 8 2)]).size ≤ (Buffer.mkBuffer 16).size := by
  have hinv : Buffer.invS ⟨List.replicate 20 0, 10, 18⟩ := ⟨by decide, by decide, by decide⟩
  have hlt : (⟨List.replicate 20 0, 10, 18⟩ : Buffer).writable_bytes < 3 := by decide
  have hA := (c6_ensure_writable_policy.1 ⟨List.replicate 20 0, 10, 18⟩ 3 hinv hlt).1 (by decide)
  have hB := c6_ensure_writable_policy.2 16
    [Buffer.BufOp.append (List.replicate 4 1), Buffer.BufOp.retrieve 4,
      Buffer.BufOp.append (List.replicate 8 2)] (by decide)
  refine ⟨?_, hA.2.1, hB⟩
  rw [hA.1]
  decide

/-- Dispatch order at the level of the four condition booleans: the
appended if-blocks equal a filter over the canonical callback order. -/
theorem dispatch_filter_core (b1 b2 b3 b4 hc he hr hw : Bool) (t : Nat) :
    ((if b1 = true then (if hc = true then [CbCall.close] else []) else []) ++
      (if b2 = true then (if he = true then [CbCall.error] else []) else []) ++
      (if b3 = true then (if hr = true then [CbCall.read t] else []) else []) ++
      (if b4 = true then (if hw = true then [CbCall.write] else []) else [])) =
      List.filter
        (fun c =>
          match c with
          | CbCall.close => b1 && hc
          | CbCall.error => b2 && he
          | CbCall.read _ => b3 && hr
          | CbCall.write => b4 && hw)
        [CbCall.close, CbCall.error, CbCall.read t, CbCall.write] := by
  cases b1 <;> cases b2 <;> cases b3 <;> cases b4 <;>
    cases hc <;> cases he <;> cases hr <;> cases hw <;> rfl

/-- C4: Channel event dispatch runs the installed callbacks in exactly
the order close (on hang-up without readable), error, read (with the
receipt timestamp), write, each exactly when its ready-bit condition
holds. -/
theorem c4_channel_dispatch_order (revents : Nat) (cbs : ChannelCbs) (t : Nat) :
    Channel.handle_event_with_guard revents cbs t =
      List.filter
        (fun c =>
          match c with
          | CbCall.close =>
            decide (revents &&& EPOLLHUP ≠ 0 ∧ revents &&& EPOLLIN = 0) && cbs.hasClose
          | CbCall.error => decide (revents &&& EPOLLERR ≠ 0) && cbs.hasError
          | CbCall.read _ => decide (revents &&& (EPOLLIN ||| EPOLLPRI) ≠ 0) && cbs.hasRead
          | CbCall.write => decide (revents &&& EPOLLOUT ≠ 0) && cbs.hasWrite)
        [CbCall.close, CbCall.error, CbCall.read t, CbCall.write] := by
  obtain ⟨hc, he, hr, hw⟩ := cbs
  rw [← dispatch_filter_core
    (decide (revents &&& EPOLLHUP ≠ 0 ∧ revents &&& EPOLLIN = 0))
    (decide (revents &&& EPOLLERR ≠ 0))
    (decide (revents &&& (EPOLLIN ||| EPOLLPRI) ≠ 0))
    (decide (revents &&& EPOLLOUT ≠ 0)) hc he hr hw t]
  simp only [Channel.handle_event_with_guard, decide_eq_true_eq]

/-- C7: the poller's channel-state tag transitions. `update_channel` on a
`kNew` or `kDeleted` channel issues `ADD` and tags `kAdded`, inserting
into the map only for `kNew`; on a `kAdded` channel it issues `DEL` and
tags `kDeleted` when the interest mask is empty and `MOD` otherwise;
`remove_channel` on a mapped channel erases it, issues `DEL` exactly
when the tag is `kAdded`, and resets the tag to `kNew`. -/
theorem c7_poller_state_transitions (m : ChannelMap) (ch : PChannel) :
    (ch.index = kNew →
      EPollPoller.update_channel m ch =
        ⟨mapInsert m ch.fd ch.ptr, { ch with index := kAdded }, some EpollCtl.add⟩) ∧
    (ch.index = kDeleted →
      EPollPoller.update_channel m ch =
        ⟨m, { ch with index := kAdded }, some EpollCtl.add⟩) ∧
    (ch.index = kAdded → ch.events = 0 →
      EPollPoller.update_channel m ch =
        ⟨m, { ch with index := kDeleted }, some EpollCtl.del⟩) ∧
    (ch.index = kAdded → ch.events ≠ 0 →
      EPollPoller.update_channel m ch = ⟨m, ch, some EpollCtl.mod⟩) ∧
    ((mapLookup m ch.fd).isSome = true →
      EPollPoller.remove_channel m ch =
        ⟨mapErase m ch.fd, { ch with index := kNew },
          if ch.index = kAdded then some EpollCtl.del else none⟩) := by
  refine ⟨?_, ?_, ?_, ?_, ?_⟩
  · intro h
    simp [EPollPoller.update_channel, h]
  · intro h
    simp [EPollPoller.update_channel, h, kNew, kDeleted]
  · intro h h2
    simp [EPollPoller.update_channel, is_none_event, h, h2, kNew, kAdded, kDeleted]
  · intro h h2
    simp [EPollPoller.update_channel, is_none_event, h, h2, kNew, kAdded, kDeleted]
  · intro h
    simp [EPollPoller.remove_channel, h]

/-- Witness for C7: a fresh channel (fd 5) registered into the map
holding fd 3, and removal of the mapped, currently added channel fd 3. -/
theorem c7_poller_state_transitions_witness :
    EPollPoller.update_channel ([(3, 7)] : ChannelMap) ⟨5, 9, kNew, 1⟩ =
      ⟨mapInsert ([(3, 7)] : ChannelMap) 5 9, ⟨5, 9, kAdded, 1⟩, some EpollCtl.add⟩ ∧
    EPollPoller.remove_channel ([(3, 7)] : ChannelMap) ⟨3, 7, kAdded, 0⟩ =
      ⟨mapErase ([(3, 7)] : ChannelMap) 3, ⟨3, 7, kNew, 0⟩,
        if (⟨3, 7, kAdded, 0⟩ : PChannel).index = kAdded then some EpollCtl.del else none⟩ :=
  ⟨(c7_poller_state_transitions ([(3, 7)] : ChannelMap) ⟨5, 9, kNew, 1⟩).1 rfl,
    (c7_poller_state_transitions ([(3, 7)] : ChannelMap) ⟨3, 7, kAdded, 0⟩).2.2.2.2 (by decide)⟩

/-- C8 counterexample: the fd 3 is a key of the map, but the mapped
pointer (7) differs from the queried channel's pointer (9), and
`has_channel` returns false, contradicting the claim that membership is
decided by fd lookup only. -/
theorem c8_counterexample :
    (mapLookup ([(3, 7)] : ChannelMap) 3).isSome = true ∧
    Poller.has_channel ([(3, 7)] : ChannelMap) ⟨3, 9, kAdded, 0⟩ = false := by
  decide

/-- C8 (amended): `Poller::has_channel` returns true exactly when the
fd maps to this very Channel object: the source compares the stored
pointer (`it->second == channel`) after the fd lookup. -/
theorem c8_amended_has_channel (m : ChannelMap) (ch : PChannel) :
    Poller.has_channel m ch = true ↔ mapLookup m ch.fd = some ch.ptr := by
  unfold Poller.has_channel
  cases h : mapLookup m ch.fd with
  | none => simp
  | some p => simp [h]

namespace EventLoopThreadPool

/-- The picks of `m` accepts from a pool of the `N` workers
`0, 1, …, N-1` starting at cursor `r` are `(r + k) % N` for `k < m`. -/
theorem dispatchSeq_range (base N : Nat) (hN : 0 < N) :
    ∀ (m r : Nat), r < N →
      (dispatchSeq base m ⟨List.range N, r⟩).1 =
        (List.range m).map (fun k => (r + k) % N) := by
  intro m
  induction m with
  | zero => intro r hr; rfl
  | succ m ih =>
    intro r hr
    have hne : (List.range N).isEmpty = false := by
      cases hEq : List.range N with
      | nil => simp [List.range_eq_nil] at hEq; omega
      | cons a l => simp [hEq]
    have hstep : get_next_loop base ⟨List.range N, r⟩ =
        (r, ⟨List.range N, (r + 1) % N⟩) := by
      unfold get_next_loop
      rw [hne]
      simp only [Bool.false_eq_true, if_false, List.length_range]
      have hget : (List.range N).getD r base = r := by
        simp [List.getD_eq_getElem?_getD, List.getElem?_range hr]
      rw [hget]
      rcases Nat.lt_or_ge (r + 1) N with hlt | hge
      · rw [if_neg (by omega), Nat.mod_eq_of_lt hlt]
      · have : r + 1 = N := by omega
        rw [if_pos (by omega), this, Nat.mod_self]
    simp only [dispatchSeq]
    rw [hstep]
    simp only
    rw [ih ((r + 1) % N) (Nat.mod_lt _ hN), List.range_succ_eq_map,
      List.map_cons, List.map_map]
    congr 1
    · simp [Nat.mod_eq_of_lt hr]
    · apply List.map_congr_left
      intro a _
      simp only [Function.comp]
      rw [Nat.mod_add_mod]
      congr 1
      omega

/-- How many of `0, 1, …, M-1` are congruent to `i` modulo `N`. -/
theorem countP_mod_range (N i : Nat) (hN : 0 < N) (hi : i < N) : ∀ (M : Nat),
    (List.range M).countP (fun k => k % N == i) =
      M / N + if i < M % N then 1 else 0 := by
  intro M
  induction M with
  | zero => simp [Nat.div_eq_of_lt hN, List.countP_nil]
  | succ M ih =>
    rw [List.range_succ, List.countP_append, ih]
    have h1 : List.countP (fun k => k % N == i) [M] = if M % N = i then 1 else 0 := by
      simp [List.countP_cons, List.countP_nil]
    have hq := Nat.div_add_mod M N
    have hr : M % N < N := Nat.mod_lt _ hN
    rcases Nat.lt_or_ge (M % N + 1) N with hlt | hge
    · have e : M + 1 = N * (M / N) + (M % N + 1) := by omega
      have hdiv : (M + 1) / N = M / N := by
        rw [e, Nat.mul_add_div hN, Nat.div_eq_of_lt hlt]
        omega
      have hmod : (M + 1) % N = M % N + 1 := by
        rw [e, Nat.mul_add_mod, Nat.mod_eq_of_lt hlt]
      rw [h1, hdiv, hmod]
      split_ifs <;> omega
    · have hNe : M % N + 1 = N := by omega
      have e : M + 1 = N * (M / N + 1) := by
        rw [Nat.mul_add, Nat.mul_one]
        omega
      have hdiv : (M + 1) / N = M / N + 1 := by
        rw [e, Nat.mul_div_cancel_left _ hN]
      have hmod : (M + 1) % N = 0 := by
        rw [e, Nat.mul_mod_right]
      rw [h1, hdiv, hmod]
      split_ifs <;> omega

/-- The ceiling division `(M + N - 1) / N` in terms of floor division. -/
theorem ceilDiv_eq (N M : Nat) (hN : 0 < N) :
    (M + N - 1) / N = M / N + if M % N = 0 then 0 else 1 := by
  have hq := Nat.div_add_mod M N
  have hr : M % N < N := Nat.mod_lt _ hN
  split_ifs with h0
  · rw [h0, Nat.add_zero] at hq
    have e : M + N - 1 = N * (M / N) + (N - 1) := by
      rw [hq]
      omega
    rw [e, Nat.mul_add_div hN, Nat.div_eq_of_lt (show N - 1 < N by omega)]
  · have e : M + N - 1 = N * (M / N + 1) + (M % N - 1) := by
      rw [Nat.mul_add, Nat.mul_one]
      omega
    rw [e, Nat.mul_add_div hN, Nat.div_eq_of_lt (show M % N - 1 < N by omega)]

end EventLoopThreadPool

/-- C9: `get_next_loop` returns the base loop when there are no
workers; with workers it returns `loops_[next_]` and advances the
cursor modulo the worker count; hence over `M` sequential accepts from
a fresh pool of `N ≥ 1` workers each worker receives either `⌊M/N⌋` or
`⌈M/N⌉` connections. -/
theorem c9_round_robin :
    (∀ (base k : Nat),
      EventLoopThreadPool.get_next_loop base ⟨[], k⟩ = (base, ⟨[], k⟩)) ∧
    (∀ (base : Nat) (p : EventLoopThreadPool), p.loops ≠ [] → p.next < p.loops.length →
      (EventLoopThreadPool.get_next_loop base p).1 = p.loops.getD p.next base ∧
      (EventLoopThreadPool.get_next_loop base p).2.next = (p.next + 1) % p.loops.length) ∧
    (∀ (base N M i : Nat), 0 < N → i < N →
      ((EventLoopThreadPool.dispatchSeq base M ⟨List.range N, 0⟩).1.count i = M / N ∨
        (EventLoopThreadPool.dispatchSeq base M ⟨List.range N, 0⟩).1.count i =
          (M + N - 1) / N)) := by
  refine ⟨?_, ?_, ?_⟩
  · intro base k
    rfl
  · intro base p hne hlt
    unfold EventLoopThreadPool.get_next_loop
    rw [if_neg (by simp [List.isEmpty_iff, hne])]
    refine ⟨rfl, ?_⟩
    simp only
    rcases Nat.lt_or_ge (p.next + 1) p.loops.length with h | h
    · rw [if_neg (by omega), Nat.mod_eq_of_lt h]
    · have : p.next + 1 = p.loops.length := by omega
      rw [if_pos (by omega), this, Nat.mod_self]
  · intro base N M i hN hi
    rw [EventLoopThreadPool.dispatchSeq_range base N hN M 0 hN,
      List.count_eq_countP, List.countP_map]
    have hpred : ((fun x => x == i) ∘ fun k => (0 + k) % N) = fun k => k % N == i := by
      funext k
      simp
    rw [hpred, EventLoopThreadPool.countP_mod_range N i hN hi M,
      EventLoopThreadPool.ceilDiv_eq N M hN]
    rcases Nat.eq_zero_or_pos (M % N) with h0 | h0
    · left
      rw [h0]
      simp
    · by_cases hir : i < M % N
      · right
        rw [if_pos hir, if_neg (by omega)]
      · left
        rw [if_neg hir]
        omega

/-- Witness for C9: with 4 workers and 8 sequential accepts, worker 1
receives exactly 2 connections (both the floor and the ceiling of 8/4),
and a mid-cycle pool returns `loops_[next_]` and wraps the cursor. -/
theorem c9_round_robin_witness :
    ((EventLoopThreadPool.dispatchSeq 0 8 ⟨List.range 4, 0⟩).1.count 1 = 8 / 4 ∨
      (EventLoopThreadPool.dispatchSeq 0 8 ⟨List.range 4, 0⟩).1.count 1 = (8 + 4 - 1) / 4) ∧
    (EventLoopThreadPool.get_next_loop 0 ⟨[10, 11, 12], 2⟩).1 =
      ([10, 11, 12].getD 2 0) ∧
    (EventLoopThreadPool.get_next_loop 0 ⟨[10, 11, 12], 2⟩).2.next = (2 + 1) % 3 :=
  ⟨c9_round_robin.2.2 0 4 8 1 (by decide) (by decide),
    (c9_round_robin.2.1 0 ⟨[10, 11, 12], 2⟩ (by decide) (by decide)).1,
    (c9_round_robin.2.1 0 ⟨[10, 11, 12], 2⟩ (by decide) (by decide)).2⟩

/-- C2 counterexample: with the connection Disconnecting, the Channel
write-interested, the write-complete callback installed and a 5-byte
output buffer fully drained by `handle_write`, the cycle's observable
order has `shutdownWrite` (issued synchronously in `handle_write`)
before `fireWriteComplete` (which only runs in the pending drain), so
the callback does not fire strictly before the shutdown is issued. -/
theorem c2_counterexample :
    ConnAct.shutdownWrite ∈ TcpConnection.cycleTrace
      (TcpConnection.handle_write ⟨StateE.kDisconnecting, true, 5, 64, true, true⟩
        (WriteOutcome.wrote 5)) ∧
    ConnAct.fireWriteComplete ∈ TcpConnection.cycleTrace
      (TcpConnection.handle_write ⟨StateE.kDisconnecting, true, 5, 64, true, true⟩
        (WriteOutcome.wrote 5)) ∧
    ¬ (TcpConnection.cycleTrace
        (TcpConnection.handle_write ⟨StateE.kDisconnecting, true, 5, 64, true, true⟩
          (WriteOutcome.wrote 5))).indexOf ConnAct.fireWriteComplete <
      (TcpConnection.cycleTrace
        (TcpConnection.handle_write ⟨StateE.kDisconnecting, true, 5, 64, true, true⟩
          (WriteOutcome.wrote 5))).indexOf ConnAct.shutdownWrite := by
  decide

/-- C2 (amended): while the output buffer is non-empty the write-side
shutdown is deferred (`shut_down_in_loop` issues nothing while the
Channel is write-interested, and a partial `handle_write` only
retrieves); when `handle_write` writes the last buffered byte, the
write-complete callback is enqueued on the loop strictly before the
shutdown is issued, and the callback itself runs after the shutdown, in
the same cycle's pending drain. -/
theorem c2_half_close_amended (c : TcpConnState) (n : Nat)
    (hs : c.state = StateE.kDisconnecting)
    (hw : c.channelWriting = true)
    (hcb : c.hasWriteCompleteCb = true)
    (hn : 0 < n) (hdrain : n = c.outputReadable) :
    TcpConnection.shut_down_in_loop c = [] ∧
    TcpConnection.cycleTrace (TcpConnection.handle_write c (WriteOutcome.wrote n)) =
      [ConnAct.retrieveOutput n, ConnAct.disableWriting, ConnAct.enqueueWriteComplete,
        ConnAct.shutdownWrite, ConnAct.fireWriteComplete] ∧
    (∀ m, 0 < m → m < c.outputReadable →
      TcpConnection.cycleTrace (TcpConnection.handle_write c (WriteOutcome.wrote m)) =
        [ConnAct.retrieveOutput m]) := by
  refine ⟨?_, ?_, ?_⟩
  · simp [TcpConnection.shut_down_in_loop, hw]
  · subst hdrain
    simp [TcpConnection.handle_write, TcpConnection.cycleTrace,
      TcpConnection.shut_down_in_loop, hw, hs, hcb, hn, Nat.sub_self]
  · intro m hm hlt
    simp [TcpConnection.handle_write, TcpConnection.cycleTrace, hw, hm,
      Nat.sub_ne_zero_of_lt hlt]

/-- Witness for C2 (amended): the trace for a 3-byte drain and a 2-byte
partial write. -/
theorem c2_half_close_amended_witness :
    TcpConnection.shut_down_in_loop ⟨StateE.kDisconnecting, true, 3, 64, true, true⟩ = [] ∧
    TcpConnection.cycleTrace
      (TcpConnection.handle_write ⟨StateE.kDisconnecting, true, 3, 64, true, true⟩
        (WriteOutcome.wrote 3)) =
      [ConnAct.retrieveOutput 3, ConnAct.disableWriting, ConnAct.enqueueWriteComplete,
        ConnAct.shutdownWrite, ConnAct.fireWriteComplete] ∧
    TcpConnection.cycleTrace
      (TcpConnection.handle_write ⟨StateE.kDisconnecting, true, 3, 64, true, true⟩
        (WriteOutcome.wrote 2)) = [ConnAct.retrieveOutput 2] := by
  have h := c2_half_close_amended ⟨StateE.kDisconnecting, true, 3, 64, true, true⟩ 3
    rfl rfl rfl (by decide) rfl
  exact ⟨h.1, h.2.1, h.2.2 2 (by decide) (by decide)⟩

/-- C3 counterexample: the direct write hits `ECONNRESET` (fault), the
crossing condition oldLen < HWM ≤ oldLen + remaining holds (0 < 4 ≤ 5)
and the callback is installed, yet no high-water-mark callback is
enqueued: the source skips the whole buffering block on a fault. -/
theorem c3_counterexample :
    ((⟨StateE.kConnected, false, 0, 4, true, true⟩ : TcpConnState).outputReadable <
      (⟨StateE.kConnected, false, 0, 4, true, true⟩ : TcpConnState).highWaterMark ∧
    (⟨StateE.kConnected, false, 0, 4, true, true⟩ : TcpConnState).highWaterMark ≤
      (⟨StateE.kConnected, false, 0, 4, true, true⟩ : TcpConnState).outputReadable +
        TcpConnection.remainingOf ⟨StateE.kConnected, false, 0, 4, true, true⟩ 5
          WriteOutcome.errECONNRESET ∧
    (⟨StateE.kConnected, false, 0, 4, true, true⟩ : TcpConnState).hasHighWaterMarkCb = true) ∧
    TcpConnection.hwmPending
      (TcpConnection.send_in_loop ⟨StateE.kConnected, false, 0, 4, true, true⟩ 5
        WriteOutcome.errECONNRESET).2 = none := by
  decide

/-- C3 (amended): on a send that is not dropped for `kDisconnected`, the
high-water-mark callback is enqueued, with pending length
oldLen + remaining, exactly when the direct write did not fault
(`EPIPE`/`ECONNRESET`), the callback is installed, oldLen < HWM and
HWM ≤ oldLen + remaining; in particular never when oldLen ≥ HWM and
never when oldLen + remaining < HWM. -/
theorem c3_high_water_mark_amended (c : TcpConnState) (len : Nat) (w : WriteOutcome)
    (hstate : c.state ≠ StateE.kDisconnected) :
    TcpConnection.hwmPending (TcpConnection.send_in_loop c len w).2 =
      if TcpConnection.faultOf c w = false ∧ c.hasHighWaterMarkCb = true ∧
          c.outputReadable < c.highWaterMark ∧
          c.highWaterMark ≤ c.outputReadable + TcpConnection.remainingOf c len w then
        some (c.outputReadable + TcpConnection.remainingOf c len w)
      else none := by
  unfold TcpConnection.send_in_loop TcpConnection.remainingOf TcpConnection.faultOf
  rw [if_neg hstate]
  by_cases hatt : c.channelWriting = false ∧ c.outputReadable = 0
  · obtain ⟨hcw, hor⟩ := hatt
    cases w <;>
      simp only [hcw, hor, if_pos (And.intro rfl rfl), TcpConnection.hwmPending] <;>
      split_ifs <;>
      simp_all [List.findSome?] <;>
      omega
  · simp only [if_neg hatt, TcpConnection.hwmPending]
    split_ifs <;> simp_all [List.findSome?] <;> omega

/-- Witness for C3 (amended): a direct write of 1 of 5 bytes on an empty
output buffer with HWM 4 leaves remaining 4 and enqueues the callback
with pending length 4. -/
theorem c3_high_water_mark_amended_witness :
    TcpConnection.hwmPending
      (TcpConnection.send_in_loop ⟨StateE.kConnected, false, 0, 4, true, true⟩ 5
        (WriteOutcome.wrote 1)).2 = some 4 :=
  (c3_high_water_mark_amended ⟨StateE.kConnected, false, 0, 4, true, true⟩ 5
    (WriteOutcome.wrote 1) (by decide)).trans (by decide)

/-- C10: `send` on a connection whose state is not `kConnected`
(Connecting, Disconnecting or Disconnected) is a silent no-op: state,
output buffer and channel interest are unchanged and no action (write,
callback, log) is performed; in particular data passed after
`shut_down` (state Disconnecting) is discarded. -/
theorem c10_send_state_gate (c : TcpConnState) (len : Nat) (w : WriteOutcome) (inLoop : Bool) :
    (c.state ≠ StateE.kConnected → TcpConnection.send c len w inLoop = (c, [])) ∧
    (c.state = StateE.kConnected →
      TcpConnection.send (TcpConnection.shut_down c) len w inLoop =
        (TcpConnection.shut_down c, [])) := by
  constructor
  · intro h
    simp [TcpConnection.send, h]
  · intro h
    have hd : (TcpConnection.shut_down c).state = StateE.kDisconnecting := by
      simp [TcpConnection.shut_down, h]
    simp [TcpConnection.send, hd]

/-- Witness for C10: a disconnected connection's send and a send right
after `shut_down` are both no-ops. -/
theorem c10_send_state_gate_witness :
    TcpConnection.send ⟨StateE.kDisconnected, false, 0, 64, true, true⟩ 5
        (WriteOutcome.wrote 5) false =
      (⟨StateE.kDisconnected, false, 0, 64, true, true⟩, []) ∧
    TcpConnection.send (TcpConnection.shut_down ⟨StateE.kConnected, true, 3, 64, true, true⟩) 5
        (WriteOutcome.wrote 5) true =
      (TcpConnection.shut_down ⟨StateE.kConnected, true, 3, 64, true, true⟩, []) :=
  ⟨(c10_send_state_gate ⟨StateE.kDisconnected, false, 0, 64, true, true⟩ 5
      (WriteOutcome.wrote 5) false).1 (by decide),
    (c10_send_state_gate ⟨StateE.kConnected, true, 3, 64, true, true⟩ 5
      (WriteOutcome.wrote 5) true).2 rfl⟩

/-- C1 (refuted; the code contradicts its own thread-safety doc
comment): the cross-thread branch of `send` binds the raw pointer
`buf.c_str()` into the posted task instead of copying the bytes, so the
posted `send_in_loop` reads the memory as it is at execution time. At a
concrete input where the caller's buffer held the byte 104 at call time
but the memory was zeroed before the loop ran the task, the bytes the
task reads differ from the call-time contents and equal the
execution-time contents. -/
theorem c1_cross_thread_send_captures_pointer :
    execCapturedTask (fun _ => 0) (send_cross_thread_capture 100 5) ≠
      readBytes (fun _ => 104) 100 5 ∧
    execCapturedTask (fun _ => 0) (send_cross_thread_capture 100 5) =
      readBytes (fun _ => 0) 100 5 := by
  constructor
  · decide
  · rfl

end Server
